import Mathlib

/-!
Shallow embedding of the quickjspp binding layer (conversion traits,
class registration and downcast dispatch, argument unwrapping, value
handles, property access traits) together with theorems checking the
natural-language specification against it.

Engine primitives (QuickJS) are modelled abstractly: class identities are
natural numbers allocated by a counter, runtime values carry a class
identity and an opaque slot, reference counts are explicit state, and
engine status codes are integers supplied as parameters.
-/

deriving instance DecidableEq for Except

namespace QjsPP

/-- Error taxonomy of the binding layer.  Each constructor models one of
the exception paths in the source: `JS_ThrowTypeError` in the shared-ptr
unwrap carries the expected native type and the value's class id;
`typeMismatchArgs` models the TypeError thrown by `detail::unwrap_arg_impl`
which names the required count and the received count; `rangeError` models
`JS_ThrowRangeError` in the integer traits; `internalInvariantViolation`
models "Object's opaque pointer is null"; `runtimeOperationFailed` models a
`qjs::exception` raised after a negative engine status; `engineFailure`
models a pending engine exception; `fuelExhausted` is an artifact of
fuel-based recursion and is never reached on the inputs considered. -/
inductive Err where
  | typeMismatch (expected : Nat) (gotClassId : Nat)
  | typeMismatchArgs (expectedAtLeast : Nat) (received : Nat)
  | rangeError
  | internalInvariantViolation
  | runtimeOperationFailed
  | engineFailure
  | fuelExhausted
deriving DecidableEq, Repr

/-! ## Class registration and downcast dispatch
(`js_traits<std::shared_ptr<T>>` in the source)

The claims concern a three-level inheritance chain Base <- Mid <- Leaf, so
the native-type index has three inhabitants.  Per-type static members of
`js_traits<std::shared_ptr<T>>` (`qjs_class_id`, `ptr_cast_fcn_map`,
`register_with_base`) become per-type fields of an explicit state record.
Expected-type tags in errors use `tidx.code`. -/

/-- Native-type index for the inheritance chain: `b` = Base, `m` = Mid,
`l` = Leaf (Leaf derives from Mid derives from Base). -/
inductive TIdx where
  | b | m | l
deriving DecidableEq, Repr

/-- Numeric code of a native type, used as the `expected` tag of a
type-mismatch error (stands for `typeid(T).name()` in the source). -/
def TIdx.code : TIdx → Nat
  | .b => 0
  | .m => 1
  | .l => 2

/-- Defunctionalized `ptr_cast_fcn_t`.  A stored cast function is either a
type's own `unwrap` (the `unwrap` passed by `ensure_can_cast_to_base`) or a
pointer upcast `std::shared_ptr<T>(f(ctx, v))` wrapped around an inner cast
function (built by the `register_with_base` hook bodies). -/
inductive CastFn where
  | unwrapAt (t : TIdx)
  | upcast (tgt : TIdx) (f : CastFn)
deriving DecidableEq, Repr

/-- Per-process registration state: for each native type its
`qjs_class_id` (0 = unallocated), its `ptr_cast_fcn_map`, and its
`register_with_base` hook defunctionalized as a list of base targets (an
entry `B` on type `D` stands for the lambda installed by
`B::register_derived_class<D>`, which forwards a new registration to `B`
with the cast function upcast to `B`).  `nextId` models the
`JS_NewClassID` counter (fresh ids start at 1). -/
structure RegSt where
  classId : TIdx → Nat
  map : TIdx → List (Nat × CastFn)
  hook : TIdx → List TIdx
  nextId : Nat

/-- Pointwise update of a per-type table. -/
def updAt (f : TIdx → α) (t : TIdx) (x : α) : TIdx → α :=
  fun u => if u = t then x else f u

/-- Assignment `m[id] = fn` on an `unordered_map` modelled as an
association list: overwrite the existing entry or append. -/
def insertCast (m : List (Nat × CastFn)) (id : Nat) (fn : CastFn) : List (Nat × CastFn) :=
  match m with
  | [] => [(id, fn)]
  | (k, v) :: r => if k = id then (id, fn) :: r else (k, v) :: insertCast r id fn

/-- Lookup in a `ptr_cast_fcn_map`. -/
def lookupCast (m : List (Nat × CastFn)) (id : Nat) : Option CastFn :=
  match m with
  | [] => none
  | (k, v) :: r => if k = id then some v else lookupCast r id

/-- `js_traits<std::shared_ptr<T>>::register_derived_class<D>(id, fn)`:
store `fn` in `T`'s `ptr_cast_fcn_map` under `id`; if `T`'s
`register_with_base` hook is installed, run it (each entry `B` of the
chain forwards the registration to `B` as `B::register_derived_class<T>`
with the cast function upcast to `B`); finally chain onto `D`'s
`register_with_base` hook the entry that forwards future registrations to
`T`.  The hook chain executed is the one captured when the call starts
(`std::function` value semantics); recursion is fuelled, the hierarchy
being acyclic. -/
def register_derived_class (fuel : Nat) (t d : TIdx) (id : Nat) (fn : CastFn)
    (st : RegSt) : RegSt :=
  match fuel with
  | 0 => st
  | fuel + 1 =>
    let st1 : RegSt := { st with map := updAt st.map t (insertCast (st.map t) id fn) }
    let st2 : RegSt := (st1.hook t).foldl
      (fun s bb => register_derived_class fuel bb t id (.upcast bb fn) s) st1
    { st2 with hook := updAt st2.hook d ((st2.hook d) ++ [t]) }

/-- The `is_registered()` predicate: a class id was allocated. -/
def is_registered (st : RegSt) (t : TIdx) : Bool :=
  st.classId t ≠ 0

/-- `JS_NewClassID`: allocate a fresh class id for `t` (only called when
unallocated). -/
def newClassId (t : TIdx) (st : RegSt) : RegSt :=
  { st with classId := updAt st.classId t st.nextId, nextId := st.nextId + 1 }

/-- `js_traits<std::shared_ptr<T>>::ensure_can_cast_to_base<B>` for a
strict base `B` of `T`: allocate `T`'s class id if needed, then register
`T` with `B` under `T`'s own `unwrap` as the cast function. -/
def ensure_can_cast_to_base (fuel : Nat) (t bse : TIdx) (st : RegSt) : RegSt :=
  let st1 := if is_registered st t then st else newClassId t st
  register_derived_class fuel bse t (st1.classId t) (.unwrapAt t) st1

/-- `register_class` reduced to the state the claims depend on: allocate
the class id when missing (`JSClassDef` installation, finalizer and
prototype are engine-side and not modelled). -/
def register_class (t : TIdx) (st : RegSt) : RegSt :=
  if is_registered st t then st else newClassId t st

/-- Runtime value as seen by the shared-ptr trait: JS `null`, an object
carrying a class identity and an opaque slot (the slot holds the
shared-ptr, `none` meaning a null shared-ptr), or a non-object primitive
(whose class identity reads as 0, `JS_GetClassID` on a non-object). -/
inductive JSVal where
  | null
  | obj (cid : Nat) (ptr : Option TIdx)
  | num (n : Int)
  | undef
deriving DecidableEq, Repr

/-- `JS_GetClassID`: class identity of a value; 0 for non-objects. -/
def classIdOf : JSVal → Nat
  | .obj cid _ => cid
  | _ => 0

/-- Opaque slot of a value (the stored shared-ptr; `none` both for a null
shared-ptr and for non-objects). -/
def opaqueOf : JSVal → Option TIdx
  | .obj _ p => p
  | _ => none

mutual

/-- `js_traits<std::shared_ptr<T>>::unwrap(ctx, val)`: JS `null` yields an
empty shared-ptr immediately; otherwise dispatch on the value's class
identity — equal to `T`'s own id reads the opaque slot, an id present in
the `ptr_cast_fcn_map` invokes the stored cast function, anything else is
a type mismatch naming the expected type and the class id; a null pointer
obtained by either successful branch is an internal invariant violation.
The result is the dynamic type of the pointee (`none` = null pointer). -/
def sharedUnwrap (fuel : Nat) (t : TIdx) (st : RegSt) (v : JSVal) :
    Except Err (Option TIdx) :=
  match fuel with
  | 0 => .error .fuelExhausted
  | fuel + 1 =>
    if v = .null then .ok none
    else
      let cid := classIdOf v
      let res : Except Err (Option TIdx) :=
        if cid = st.classId t then .ok (opaqueOf v)
        else
          match lookupCast (st.map t) cid with
          | some f => evalCast fuel f st v
          | none => .error (.typeMismatch t.code cid)
      match res with
      | .error e => .error e
      | .ok p => if p = none then .error .internalInvariantViolation else .ok p

/-- Run a stored cast function: a type's own `unwrap`, or a pointer upcast
(which preserves the pointee and its dynamic type) around an inner cast. -/
def evalCast (fuel : Nat) (f : CastFn) (st : RegSt) (v : JSVal) :
    Except Err (Option TIdx) :=
  match fuel with
  | 0 => .error .fuelExhausted
  | fuel + 1 =>
    match f with
    | .unwrapAt t => sharedUnwrap fuel t st v
    | .upcast _ g => evalCast fuel g st v

end

/-- `js_traits<std::shared_ptr<T>>::wrap`: a null shared-ptr becomes JS
`null`; otherwise register the class if needed and build an object of
`T`'s class id whose opaque slot holds the pointer. -/
def sharedWrap (t : TIdx) (p : Option TIdx) (st : RegSt) : RegSt × JSVal :=
  match p with
  | none => (st, .null)
  | some d =>
    let st1 := register_class t st
    (st1, .obj (st1.classId t) (some d))

/-- Empty registration state: no ids allocated, no cast maps, no hooks. -/
def regSt0 : RegSt :=
  { classId := fun _ => 0, map := fun _ => [], hook := fun _ => [], nextId := 1 }

/-- Forward registration order: register Base, then Mid as derived from
Base, then Leaf as derived from Mid. -/
def stForward : RegSt :=
  ensure_can_cast_to_base 8 .l .m (ensure_can_cast_to_base 8 .m .b (register_class .b regSt0))

/-- Reverse registration order: register Base, then Leaf as derived from
Mid, then Mid as derived from Base. -/
def stReverse : RegSt :=
  ensure_can_cast_to_base 8 .m .b (ensure_can_cast_to_base 8 .l .m (register_class .b regSt0))

/-- A Leaf instance wrapped as `shared<Leaf>` in a given state: the
resulting runtime value (state component discarded; Leaf is already
registered in both scenario states). -/
def leafValue (st : RegSt) : JSVal :=
  (sharedWrap .l (some .l) st).2

/-! ## Integer conversion traits (`js_traits<Integer>`) and
integer-keyed property access (`property_traits<Integer>`)

Native integral types of at most 64 bits are the eight standard
sign/width combinations.  Machine values are embedded as `Int` with
explicit range predicates and modular reduction where the engine or a
`static_cast` narrows. -/

/-- The eight native integral types of at most 64 bits. -/
inductive IntTy where
  | i8 | u8 | i16 | u16 | i32 | u32 | i64 | u64
deriving DecidableEq, Repr

/-- `sizeof` in bytes. -/
def IntTy.bytes : IntTy → Nat
  | .i8 => 1 | .u8 => 1
  | .i16 => 2 | .u16 => 2
  | .i32 => 4 | .u32 => 4
  | .i64 => 8 | .u64 => 8

/-- `std::is_signed_v`. -/
def IntTy.signed : IntTy → Bool
  | .i8 => true | .u8 => false
  | .i16 => true | .u16 => false
  | .i32 => true | .u32 => false
  | .i64 => true | .u64 => false

/-- `std::numeric_limits<T>::min()`. -/
def IntTy.minVal (t : IntTy) : Int :=
  if t.signed then -(2 ^ (8 * t.bytes - 1)) else 0

/-- `std::numeric_limits<T>::max()`. -/
def IntTy.maxVal (t : IntTy) : Int :=
  if t.signed then 2 ^ (8 * t.bytes - 1) - 1 else 2 ^ (8 * t.bytes) - 1

/-- `std::in_range<T>(x)`: `x` is representable in `t`. -/
def inRange (t : IntTy) (x : Int) : Prop :=
  t.minVal ≤ x ∧ x ≤ t.maxVal

instance (t : IntTy) (x : Int) : Decidable (inRange t x) := by
  unfold inRange; infer_instance

/-- Modular reduction of an integer into `t`'s value range (the semantics
of `JS_ToInt32` / `JS_ToUint32` / `JS_ToInt64` on an integral number, and
of a narrowing `static_cast` between integer types). -/
def wrapMod (t : IntTy) (n : Int) : Int :=
  if t.signed then
    (n + 2 ^ (8 * t.bytes - 1)) % 2 ^ (8 * t.bytes) - 2 ^ (8 * t.bytes - 1)
  else
    n % 2 ^ (8 * t.bytes)

/-- The widened intermediate type of `js_traits<Integer>`: `int64_t` when
`sizeof(Integer) > sizeof(int32_t)`, else `uint32_t` when unsigned, else
`int32_t`. -/
def widened (t : IntTy) : IntTy :=
  if t.bytes > 4 then .i64 else if t.signed then .i32 else .u32

/-- `js_traits<Integer>::unwrap` on an integral runtime number `n`: the
engine converts `n` into the widened type (`unwrap_integer`'s `F`), then
`std::in_range<Integer>` is checked before narrowing; out of range throws
a RangeError. -/
def intUnwrap (t : IntTy) (n : Int) : Except Err Int :=
  let r := wrapMod (widened t) n
  if inRange t r then .ok r else .error .rangeError

/-- `js_traits<Integer>::wrap`: `std::in_range<R>(val)` is checked for the
widened type `R` before the cast (out of range throws a RangeError), then
the engine stores the exact integral value. -/
def intWrap (t : IntTy) (x : Int) : Except Err Int :=
  if inRange (widened t) x then .ok x else .error .rangeError

/-- The routing condition of `property_traits<Integer>`:
`std::numeric_limits<Integer>::max() > UINT32_MAX || std::is_signed_v`. -/
def usesInt64Accessor (t : IntTy) : Bool :=
  decide (t.maxVal > 4294967295) || t.signed

/-- `property_traits<Integer>::get`: route through the signed 64-bit
engine accessor (`JS_GetPropertyInt64`, key cast to `int64_t`) or the
unsigned 32-bit accessor (`JS_GetPropertyUint32`, key cast to `uint32_t`)
according to the routing condition.  The accessors are abstract
parameters. -/
def propGet (t : IntTy) (get64 : Int → α) (get32 : Int → α) (idx : Int) : α :=
  if usesInt64Accessor t then get64 (wrapMod .i64 idx) else get32 (wrapMod .u32 idx)

/-- `property_traits<Integer>::set`: same routing; the chosen engine
accessor returns a status and a negative status raises the bridged
exception (RuntimeOperationFailed in the spec's taxonomy). -/
def propSet (t : IntTy) (set64 : Int → Int) (set32 : Int → Int) (idx : Int) :
    Except Err Unit :=
  let status := if usesInt64Accessor t then set64 (wrapMod .i64 idx) else set32 (wrapMod .u32 idx)
  if status < 0 then .error .runtimeOperationFailed else .ok ()

/-! ## Optional conversion trait (`js_traits<std::optional<T>>`)

The element trait is an arbitrary unwrap function into `Except Err`;
`.error e` stands for a thrown `qjs::exception` with `e` as the engine's
pending exception.  The pending-exception slot of the engine is threaded
explicitly so that "clears the runtime's exception state" is visible. -/

/-- `js_traits<std::optional<T>>::unwrap` with the engine's
pending-exception slot threaded through: JS `null` returns empty at once;
otherwise the element unwrap runs — on success the value is wrapped in
`some` and the pending slot is untouched, on failure (which set the
pending slot) `JS_FreeValue(ctx, JS_GetException(ctx))` pops and discards
the pending exception and the result is empty.  No path throws: the
result type has no error component beyond the returned pending slot. -/
def optUnwrap (f : JSVal → Except Err α) (v : JSVal) (pending : Option Err) :
    Option α × Option Err :=
  if v = .null then (none, pending)
  else
    match f v with
    | .ok a => (some a, pending)
    | .error _ => (none, none)

/-- `js_traits<std::optional<T>>::wrap`: empty becomes JS `null`, a
present value goes through the element trait's wrap. -/
def optWrap (g : α → JSVal) (o : Option α) : JSVal :=
  match o with
  | none => .null
  | some a => g a

/-! ## Positional-argument unwrapping (`detail::unwrap_arg_impl`,
`detail::unwrap_args`)

A wrapped callable's parameter list is a list of argument specs: each is
either a single positional parameter with that parameter's unwrap
function, or a `rest<T>` parameter with the element unwrap function.
Element types are erased to a common codomain `α`.  The C++ evaluates the
pack expansion in an unspecified order; the model fixes left-to-right. -/

/-- One declared parameter of a wrapped callable: a plain positional
parameter or a `rest` parameter (each carrying its unwrap function). -/
inductive ArgSpec (α : Type) where
  | single (f : JSVal → Except Err α)
  | rest (f : JSVal → Except Err α)

/-- Result of unwrapping one parameter: a single value or the sequence
captured by a `rest` parameter. -/
inductive ArgVal (α : Type) where
  | one (a : α)
  | many (l : List α)
deriving DecidableEq, Repr

/-- `detail::unwrap_arg_impl<T, I, NArgs>::unwrap`: with `argc <= I` throw
the TypeError naming the required count `NArgs` and the received count
`argc`; otherwise unwrap the `I`-th positional argument (so no argument
slot beyond those supplied is ever read). -/
def unwrapSingleArg (f : JSVal → Except Err α) (nargs i : Nat) (args : List JSVal) :
    Except Err α :=
  if h : args.length ≤ i then .error (.typeMismatchArgs nargs args.length)
  else f (args.get ⟨i, Nat.lt_of_not_le h⟩)

/-- Sequential element-wise conversion, first failure aborting (the
`push_back` loop of the `rest` case). -/
def exceptMapList (f : JSVal → Except Err α) : List JSVal → Except Err (List α)
  | [] => .ok []
  | v :: vs => do
    let a ← f v
    let as ← exceptMapList f vs
    pure (a :: as)

/-- `detail::unwrap_arg_impl<rest<T>, I, NArgs>::unwrap`: greedily convert
every remaining positional argument from index `I` on, in call order. -/
def unwrapRestArg (f : JSVal → Except Err α) (i : Nat) (args : List JSVal) :
    Except Err (List α) :=
  exceptMapList f (args.drop i)

/-- The `static_assert(I == NArgs - 1)` of the `rest` specialization,
instantiated at one parameter position. -/
def restPositionOk (α : Type) : ArgSpec α → Nat → Nat → Bool
  | .single _, _, _ => true
  | .rest _, i, nargs => i = nargs - 1

/-- Worker for `specsWellFormed`: check the `static_assert` for each spec
at its position, `n` being the declared parameter count. -/
def specsWFGo (n : Nat) : List (ArgSpec α) → Nat → Bool
  | [], _ => true
  | s :: ss, i => restPositionOk α s i n && specsWFGo n ss (i + 1)

/-- Conjunction of the per-position `static_assert`s over a whole
parameter list: a parameter list compiles only when every `rest`
parameter sits in the last position. -/
def specsWellFormed (specs : List (ArgSpec α)) : Bool :=
  specsWFGo specs.length specs 0

/-- Worker of `detail::unwrap_args`: unwrap the spec at position `i`,
then the remaining specs at the following positions, with `nargs` the
total declared parameter count. -/
def unwrapArgsGo (nargs : Nat) (args : List JSVal) :
    List (ArgSpec α) → Nat → Except Err (List (ArgVal α))
  | [], _ => .ok []
  | s :: ss, i => do
    let v ← match s with
      | .single f => (unwrapSingleArg f nargs i args).map ArgVal.one
      | .rest f => (unwrapRestArg f i args).map ArgVal.many
    let vs ← unwrapArgsGo nargs args ss (i + 1)
    pure (v :: vs)

/-- `detail::unwrap_args`: unwrap every declared parameter positionally
from the runtime argument list. -/
def unwrapArgs (specs : List (ArgSpec α)) (args : List JSVal) :
    Except Err (List (ArgVal α)) :=
  unwrapArgsGo specs.length args specs 0

/-! ## Value handles (`qjs::value`)

A handle is `{ ctx, v }`; all handles considered refer to one underlying
reference-counted runtime value, so a handle reduces to whether its
context pointer is non-null, and the shared state is the value's
reference count plus whether the value's tag is `JS_TAG_MODULE` (the
destructor skips the release for module-tagged values).  Handle lifecycle
operations become steps of an explicit machine; `released` counts
references transferred out to raw code by `release()`. -/

/-- One value handle: whether its context pointer is non-null (a handle
with a null context owns nothing and its destruction releases nothing). -/
structure Handle where
  hasCtx : Bool
deriving DecidableEq, Repr

/-- Shared state: the underlying value's reference count, the live
handles (by index of creation order), how many references `release()`
transferred out to raw code, and the value's tag class. -/
structure HandleSt where
  rc : Int
  handles : List Handle
  released : Nat
  isModule : Bool
deriving DecidableEq, Repr

/-- Handle lifecycle operations: `fresh` constructs a handle from the raw
value with an explicit `JS_DupValue`; `copy i` copy-constructs from
handle `i`; `mov i` move-constructs from handle `i`; `rel i` is
`release()` on handle `i`; `drop i` destroys handle `i`. -/
inductive HOp where
  | fresh
  | copy (i : Nat)
  | mov (i : Nat)
  | rel (i : Nat)
  | drop (i : Nat)
deriving DecidableEq, Repr

/-- Set the `hasCtx` flag of handle `i` to false (the nulled-out source of
a move, or a released handle). -/
def clearCtx (hs : List Handle) (i : Nat) : List Handle :=
  hs.set i { hasCtx := false }

/-- One lifecycle step.
`fresh`: `value(ctx, JS_DupValue(ctx, raw))` — increment, new owning handle.
`copy i`: the copy constructor — `JS_DupValue` increments unconditionally,
the new handle inherits the source's context pointer.
`mov i`: the move constructor — no count change, the new handle takes the
source's context and the source's context is nulled.
`rel i`: `release()` — no count change, the handle's context is nulled and
the reference now lives with the raw caller.
`drop i`: the destructor — decrement exactly when the context is non-null
and the value's tag is not `JS_TAG_MODULE`, then the handle is gone.
Steps naming an out-of-range handle do nothing. -/
def hstep (st : HandleSt) (op : HOp) : HandleSt :=
  match op with
  | .fresh => { st with rc := st.rc + 1, handles := st.handles ++ [{ hasCtx := true }] }
  | .copy i =>
    match st.handles[i]? with
    | none => st
    | some h => { st with rc := st.rc + 1, handles := st.handles ++ [{ hasCtx := h.hasCtx }] }
  | .mov i =>
    match st.handles[i]? with
    | none => st
    | some h => { st with handles := clearCtx st.handles i ++ [{ hasCtx := h.hasCtx }] }
  | .rel i =>
    match st.handles[i]? with
    | none => st
    | some h =>
      { st with handles := clearCtx st.handles i,
                released := if h.hasCtx then st.released + 1 else st.released }
  | .drop i =>
    match st.handles[i]? with
    | none => st
    | some h =>
      { st with handles := st.handles.eraseIdx i,
                rc := if h.hasCtx ∧ ¬st.isModule then st.rc - 1 else st.rc }

/-- Run a sequence of lifecycle operations. -/
def hrun (st : HandleSt) (ops : List HOp) : HandleSt :=
  ops.foldl hstep st

/-- Number of handles whose context pointer is non-null. -/
def ownCount : List Handle → Nat
  | [] => 0
  | h :: hs => (if h.hasCtx then 1 else 0) + ownCount hs

/-- Initial state: the underlying value has reference count `r0` and no
handles exist yet. -/
def hst0 (r0 : Int) (isModule : Bool) : HandleSt :=
  { rc := r0, handles := [], released := 0, isModule := isModule }

/-- An operation is within the handle discipline when a copy is taken
only from a handle whose context pointer is non-null (copying a moved-from
handle duplicates the raw value's count while producing a handle that will
never release it); all other operations are unrestricted. -/
def copySourceOk (st : HandleSt) : HOp → Bool
  | .copy i =>
    match st.handles[i]? with
    | some h => h.hasCtx
    | none => true
  | _ => true

/-- A whole operation sequence stays within the handle discipline along
its own execution. -/
def opsOk : HandleSt → List HOp → Bool
  | _, [] => true
  | st, op :: ops => copySourceOk st op && opsOk (hstep st op) ops

/-! ## Boolean trait (`js_traits<bool>`) -/

/-- `js_traits<bool>::unwrap`: `JS_ToBool(ctx, val) > 0`, with the
engine's `JS_ToBool` an abstract integer-status primitive.  The function
is total into `Bool`: no error path exists, a negative status collapses
to `false`. -/
def boolUnwrap (toBool : JSVal → Int) (v : JSVal) : Bool :=
  toBool v > 0

/-! ## Handle equality (`value::operator==`) -/

/-- A raw runtime value as compared by `value::operator==`: the tag and
the payload word (`JS_VALUE_GET_TAG`, `JS_VALUE_GET_PTR` — for heap values
the pointer bits, here an abstract heap index). -/
structure RawVal where
  tag : Int
  payload : Nat
deriving DecidableEq, Repr

/-- `value::operator==`: tags equal and payload words equal. -/
def rawEq (a b : RawVal) : Bool :=
  a.tag == b.tag && a.payload == b.payload

/-! ## Theorems -/

/-- Claim C1 is false as stated: derived-class cast registration is NOT
order-independent.  Concretely, registering Leaf-derived-from-Mid before
Mid-derived-from-Base (state `stReverse`, where Base has id 1, Leaf id 2,
Mid id 3) leaves Base's derived-cast table without an entry for Leaf's
class identity, and unwrapping a runtime value holding a Leaf instance as
`shared<Base>` fails with a TypeMismatch instead of recovering a Leaf
pointer. -/
theorem C1_counterexample :
    lookupCast (stReverse.map TIdx.b) (stReverse.classId TIdx.l) = none ∧
    sharedUnwrap 10 TIdx.b stReverse (leafValue stReverse) =
      .error (.typeMismatch TIdx.b.code (stReverse.classId TIdx.l)) ∧
    sharedUnwrap 10 TIdx.b stReverse (leafValue stReverse) ≠ .ok (some TIdx.l) := by
  refine ⟨by decide, by decide, by decide⟩

/-- Claim C1 as amended: propagation of derived-cast registrations is
order-dependent.  For the chain Base <- Mid <- Leaf, registering
Mid-derived-from-Base first and Leaf-derived-from-Mid second does place an
entry for Leaf's class identity in Base's derived-cast table (the
propagation hook installed on Mid forwards the later Leaf registration up
to Base), and unwrapping a runtime value holding a Leaf instance as
`shared<Base>` then recovers a non-null pointer whose dynamic type is
Leaf; but in the opposite registration order the hook on Mid is installed
only after Leaf's entry already sits in Mid's table, the entry is never
replayed upward, Base's table has no entry for Leaf's identity, and the
same unwrap fails with a TypeMismatch. -/
theorem C1_propagation_forward_only :
    lookupCast (stForward.map TIdx.b) (stForward.classId TIdx.l) =
      some (.upcast TIdx.b (.unwrapAt TIdx.l)) ∧
    sharedUnwrap 10 TIdx.b stForward (leafValue stForward) = .ok (some TIdx.l) ∧
    lookupCast (stReverse.map TIdx.b) (stReverse.classId TIdx.l) = none ∧
    sharedUnwrap 10 TIdx.b stReverse (leafValue stReverse) =
      .error (.typeMismatch TIdx.b.code (stReverse.classId TIdx.l)) := by
  refine ⟨by decide, by decide, by decide, by decide⟩

/-- Claim C2 is false as stated at the runtime value `null`: for the
registered class Base (state `stForward`, Base's id 1), the value JS
`null` has class identity 0, which neither equals Base's id nor occurs in
Base's derived-cast table, so the claimed dispatch demands a TypeMismatch
naming the expected type and class identity 0 — but `unwrap` short-circuits
on `JS_IsNull` before the dispatch and succeeds with an empty pointer,
which the null-pointer check also never sees. -/
theorem C2_counterexample :
    classIdOf JSVal.null ≠ stForward.classId TIdx.b ∧
    lookupCast (stForward.map TIdx.b) (classIdOf JSVal.null) = none ∧
    sharedUnwrap 10 TIdx.b stForward JSVal.null ≠
      .error (.typeMismatch TIdx.b.code (classIdOf JSVal.null)) ∧
    sharedUnwrap 10 TIdx.b stForward JSVal.null = .ok none := by
  refine ⟨by decide, by decide, by decide, by decide⟩

/-- Claim C2 as amended: for every registered class `t` and every
NON-null runtime value `v`, `unwrap` dispatches in the claimed order — a
class identity equal to `t`'s own reads the opaque slot directly
(succeeding on a non-null pointer, failing with
InternalInvariantViolation on a null one); otherwise an identity present
in `t`'s derived-cast table invokes the stored cast function (a non-null
recovered pointer is returned, a null one fails with
InternalInvariantViolation); otherwise the operation fails with a
TypeMismatch naming the expected type and the value's class identity.
(A runtime `null` is excluded: it is mapped to an empty pointer before
the dispatch.) -/
theorem C2_unwrap_dispatch (st : RegSt) (t : TIdx) (v : JSVal) (fuel : Nat)
    (hreg : is_registered st t = true) (hv : v ≠ JSVal.null) :
    (classIdOf v = st.classId t → opaqueOf v ≠ none →
      sharedUnwrap (fuel + 1) t st v = .ok (opaqueOf v)) ∧
    (classIdOf v = st.classId t → opaqueOf v = none →
      sharedUnwrap (fuel + 1) t st v = .error .internalInvariantViolation) ∧
    (∀ f p, classIdOf v ≠ st.classId t →
      lookupCast (st.map t) (classIdOf v) = some f →
      evalCast fuel f st v = .ok p → p ≠ none →
      sharedUnwrap (fuel + 1) t st v = .ok p) ∧
    (∀ f, classIdOf v ≠ st.classId t →
      lookupCast (st.map t) (classIdOf v) = some f →
      evalCast fuel f st v = .ok none →
      sharedUnwrap (fuel + 1) t st v = .error .internalInvariantViolation) ∧
    (classIdOf v ≠ st.classId t →
      lookupCast (st.map t) (classIdOf v) = none →
      sharedUnwrap (fuel + 1) t st v = .error (.typeMismatch t.code (classIdOf v))) := by
  refine ⟨?_, ?_, ?_, ?_, ?_⟩
  · intro hcid hp
    simp [sharedUnwrap, hv, hcid, hp]
  · intro hcid hp
    simp [sharedUnwrap, hv, hcid, hp]
  · intro f p hcid hf hev hp
    simp [sharedUnwrap, hv, hcid, hf, hev, hp]
  · intro f hcid hf hev
    simp [sharedUnwrap, hv, hcid, hf, hev]
  · intro hcid hf
    simp [sharedUnwrap, hv, hcid, hf]

/-- Witness for the amended claim C2: in the forward-registered state,
the Leaf-instance value (class identity 3, Base's id 1) goes through the
derived-cast branch of the dispatch and recovers the Leaf pointer. -/
theorem C2_unwrap_dispatch_witness :
    sharedUnwrap (9 + 1) TIdx.b stForward (JSVal.obj 3 (some TIdx.l)) =
      .ok (some TIdx.l) := by
  have h := C2_unwrap_dispatch stForward TIdx.b (JSVal.obj 3 (some TIdx.l)) 9
    (by decide) (by decide)
  exact h.2.2.1 (.upcast TIdx.b (.unwrapAt TIdx.l)) (some TIdx.l)
    (by decide) (by decide) (by decide) (by decide)

/-- A value inside a type's range is fixed by modular reduction into that
range. -/
theorem wrapMod_eq_self (t : IntTy) (x : Int) (h : inRange t x) : wrapMod t x = x := by
  rcases t <;>
    simp only [wrapMod, inRange, IntTy.minVal, IntTy.maxVal, IntTy.signed, IntTy.bytes,
      if_true, if_false] at h ⊢ <;>
    norm_num at h ⊢ <;>
    omega

/-- Claim C3: for every native integral type of at most 64 bits, every
value of the type that is also representable in the widened intermediate
type (int64 when wider than 32 bits, uint32 for unsigned types of at most
32 bits, int32 otherwise) round-trips: `unwrap (wrap x) = x`; and
unwrapping a runtime integral number whose widened conversion lands
outside the type's range fails with a RangeError instead of silently
narrowing. -/
theorem C3_int_roundtrip_and_range (t : IntTy) (x n : Int) :
    (inRange t x → inRange (widened t) x →
      Except.bind (intWrap t x) (intUnwrap t) = .ok x) ∧
    (¬ inRange t (wrapMod (widened t) n) → intUnwrap t n = .error .rangeError) := by
  constructor
  · intro h1 h2
    have hw : intWrap t x = .ok x := by simp [intWrap, h2]
    rw [hw]
    show intUnwrap t x = .ok x
    simp [intUnwrap, wrapMod_eq_self (widened t) x h2, h1]
  · intro h
    simp [intUnwrap, h]

/-- Witness for claim C3: `uint8` round-trips its maximum 255, and
unwrapping 256 into `uint8` (widened conversion 256, outside `uint8`'s
range) fails with a RangeError. -/
theorem C3_int_roundtrip_and_range_witness :
    Except.bind (intWrap IntTy.u8 255) (intUnwrap IntTy.u8) = .ok 255 ∧
    intUnwrap IntTy.u8 256 = .error .rangeError := by
  have h := C3_int_roundtrip_and_range IntTy.u8 255 256
  exact ⟨h.1 (by decide) (by decide), h.2 (by decide)⟩

/-- Claim C4: unwrapping as `optional<T>` never throws, for any element
trait.  A runtime `null` yields the empty optional with the engine's
pending-exception slot untouched; a successful element unwrap yields a
present optional; ANY element-unwrap failure is swallowed — the pending
exception the failure set is popped and discarded and the result is the
empty optional.  Wrapping maps the empty optional to runtime `null` and a
present value through the element trait's wrap.  (Totality is structural:
`optUnwrap` returns a plain pair, with no exception outcome.) -/
theorem C4_optional_swallows (f : JSVal → Except Err α) (g : α → JSVal)
    (v : JSVal) (pending : Option Err) :
    (v = JSVal.null → optUnwrap f v pending = (none, pending)) ∧
    (∀ a, v ≠ JSVal.null → f v = .ok a → optUnwrap f v pending = (some a, pending)) ∧
    (∀ e, v ≠ JSVal.null → f v = .error e → optUnwrap f v pending = (none, none)) ∧
    optWrap g (none : Option α) = JSVal.null ∧
    (∀ a, optWrap g (some a) = g a) := by
  refine ⟨?_, ?_, ?_, rfl, fun a => rfl⟩
  · intro hv
    simp [optUnwrap, hv]
  · intro a hv hf
    simp [optUnwrap, hv, hf]
  · intro e hv hf
    simp [optUnwrap, hv, hf]

/-- Witness for claim C4: with a concrete always-failing element trait,
unwrapping a number yields the empty optional and clears the pending
exception; a runtime `null` yields the empty optional leaving the pending
slot alone; the empty optional wraps to `null`. -/
theorem C4_optional_swallows_witness :
    optUnwrap (fun _ => (.error .rangeError : Except Err Nat)) (JSVal.num 0)
      (some .engineFailure) = (none, none) ∧
    optUnwrap (fun _ => (.ok 7 : Except Err Nat)) JSVal.null (some .rangeError) =
      (none, some .rangeError) ∧
    optWrap (fun n : Nat => JSVal.num n) none = JSVal.null := by
  refine ⟨?_, ?_, ?_⟩
  · exact (C4_optional_swallows (fun _ => (.error .rangeError : Except Err Nat))
      (fun n : Nat => JSVal.num n) (JSVal.num 0) (some .engineFailure)).2.2.1
      .rangeError (by decide) rfl
  · exact (C4_optional_swallows (fun _ => (.ok 7 : Except Err Nat))
      (fun n : Nat => JSVal.num n) JSVal.null (some .rangeError)).1 rfl
  · exact (C4_optional_swallows (fun _ => (.ok 7 : Except Err Nat))
      (fun n : Nat => JSVal.num n) JSVal.null (some .rangeError)).2.2.2.1

/-- Monadic bind on `Except` applied to a success. -/
theorem ebind_ok (a : α) (f : α → Except ε β) : (Except.ok a >>= f) = f a := rfl

/-- Monadic bind on `Except` applied to a failure. -/
theorem ebind_error (e : ε) (f : α → Except ε β) :
    ((Except.error e : Except ε α) >>= f) = .error e := rfl

/-- `Except.map` applied to a success. -/
theorem emap_ok (f : α → β) (a : α) :
    Except.map f (Except.ok a : Except ε α) = .ok (f a) := rfl

/-- `Except.map` applied to a failure. -/
theorem emap_error (f : α → β) (e : ε) :
    Except.map f (Except.error e : Except ε α) = .error e := rfl

/-- `pure` into `Except` is success. -/
theorem epure_eq (a : α) : (pure a : Except ε α) = .ok a := rfl

/-- If the argument list is exhausted before the declared positional
parameters are (and every parameter that does have an argument unwraps
successfully), argument unwrapping from position `i` on fails with the
TypeError naming the declared count and the received count. -/
theorem unwrapArgsGo_arity_error (n : Nat) (args : List JSVal)
    (fs : List (JSVal → Except Err α)) (i : Nat)
    (hle : i ≤ args.length) (hlt : args.length < i + fs.length)
    (hok : ∀ k fk vk, fs.get? k = some fk → args.get? (i + k) = some vk →
      ∃ a, fk vk = .ok a) :
    unwrapArgsGo n args (fs.map ArgSpec.single) i =
      .error (.typeMismatchArgs n args.length) := by
  induction fs generalizing i with
  | nil => simp only [List.length_nil, Nat.add_zero] at hlt; omega
  | cons f ft ih =>
    by_cases hi : args.length ≤ i
    · have he : unwrapSingleArg f n i args = .error (.typeMismatchArgs n args.length) := by
        simp [unwrapSingleArg, hi]
      simp [unwrapArgsGo, he, emap_error, ebind_error]
    · push_neg at hi
      obtain ⟨a, ha⟩ := hok 0 f (args.get ⟨i, hi⟩) rfl
        (by simpa using List.get?_eq_get hi)
      have hs : unwrapSingleArg f n i args = .ok a := by
        simp only [unwrapSingleArg, dif_neg (Nat.not_le.mpr hi)]
        exact ha
      have hrec := ih (i + 1) (by omega)
        (by simp only [List.length_cons] at hlt; omega)
        (fun k fk vk hk hv => hok (k + 1) fk vk (by simpa using hk)
          (by rw [show i + (k + 1) = i + 1 + k from by omega]; exact hv))
      simp [unwrapArgsGo, hs, emap_ok, ebind_ok, ebind_error, hrec]

/-- If every declared positional parameter has an argument and each
unwraps successfully, argument unwrapping from position `i` on returns
the unwrapped values in order. -/
theorem unwrapArgsGo_all_ok (n : Nat) (args : List JSVal)
    (fs : List (JSVal → Except Err α)) (i : Nat) (g : Nat → α)
    (hle : i + fs.length ≤ args.length)
    (hok : ∀ k fk vk, fs.get? k = some fk → args.get? (i + k) = some vk →
      fk vk = .ok (g (i + k))) :
    unwrapArgsGo n args (fs.map ArgSpec.single) i =
      .ok ((List.range fs.length).map fun k => ArgVal.one (g (i + k))) := by
  induction fs generalizing i with
  | nil => simp [unwrapArgsGo]
  | cons f ft ih =>
    have hi : i < args.length := by simp only [List.length_cons] at hle; omega
    have ha := hok 0 f (args.get ⟨i, hi⟩) rfl (by simpa using List.get?_eq_get hi)
    have hs : unwrapSingleArg f n i args = .ok (g (i + 0)) := by
      simp only [unwrapSingleArg, dif_neg (Nat.not_le.mpr hi)]
      exact ha
    have hrec := ih (i + 1) (by simp only [List.length_cons] at hle; omega)
      (fun k fk vk hk hv => by
        have hh := hok (k + 1) fk vk (by simpa using hk)
          (by rw [show i + (k + 1) = i + 1 + k from by omega]; exact hv)
        rwa [show i + (k + 1) = i + 1 + k from by omega] at hh)
    simp only [List.map_cons, unwrapArgsGo, hs, Except.map, Except.bind, hrec,
      List.length_cons, List.range_succ_eq_map, List.map_map]
    refine congrArg Except.ok (List.cons_eq_cons.mpr ⟨by simp, ?_⟩)
    apply List.map_congr_left
    intro k _
    simp only [Function.comp_apply]
    rw [show i + 1 + k = i + (k + 1) from by omega]

/-- Element-wise conversion succeeds when every element's unwrap does,
yielding the converted elements in order. -/
theorem exceptMapList_all_ok (f : JSVal → Except Err α) (h : JSVal → α)
    (l : List JSVal) (hok : ∀ v ∈ l, f v = .ok (h v)) :
    exceptMapList f l = .ok (l.map h) := by
  induction l with
  | nil => rfl
  | cons v vs ih =>
    have hv := hok v (by simp)
    have hrec := ih fun w hw => hok w (by simp [hw])
    simp [exceptMapList, hv, hrec, ebind_ok]

/-- Fixed positional parameters followed by a final `rest` parameter:
when every fixed parameter has a successfully unwrapping argument and
every trailing argument converts, the result is the fixed values in order
followed by the captured trailing sequence in call order. -/
theorem unwrapArgsGo_fixed_then_rest (n : Nat) (args : List JSVal)
    (gr : JSVal → Except Err α) (h : JSVal → α)
    (fs : List (JSVal → Except Err α)) (i : Nat) (g : Nat → α)
    (hle : i + fs.length ≤ args.length)
    (hok : ∀ k fk vk, fs.get? k = some fk → args.get? (i + k) = some vk →
      fk vk = .ok (g (i + k)))
    (hrest : ∀ v ∈ args.drop (i + fs.length), gr v = .ok (h v)) :
    unwrapArgsGo n args (fs.map ArgSpec.single ++ [ArgSpec.rest gr]) i =
      .ok (((List.range fs.length).map fun k => ArgVal.one (g (i + k))) ++
        [ArgVal.many ((args.drop (i + fs.length)).map h)]) := by
  induction fs generalizing i with
  | nil =>
    have hm := exceptMapList_all_ok gr h (args.drop i) (by simpa using hrest)
    simp [unwrapArgsGo, unwrapRestArg, hm, emap_ok, ebind_ok]
  | cons f ft ih =>
    have hi : i < args.length := by simp only [List.length_cons] at hle; omega
    have ha := hok 0 f (args.get ⟨i, hi⟩) rfl (by simpa using List.get?_eq_get hi)
    have hs : unwrapSingleArg f n i args = .ok (g (i + 0)) := by
      simp only [unwrapSingleArg, dif_neg (Nat.not_le.mpr hi)]
      exact ha
    have hrec := ih (i + 1) (by simp only [List.length_cons] at hle; omega)
      (fun k fk vk hk hv => by
        have hh := hok (k + 1) fk vk (by simpa using hk)
          (by rw [show i + (k + 1) = i + 1 + k from by omega]; exact hv)
        rwa [show i + (k + 1) = i + 1 + k from by omega] at hh)
      (by rw [show i + 1 + ft.length = i + (ft.length + 1) from by omega]
          simpa using hrest)
    rw [show i + 1 + ft.length = i + (ft.length + 1) from by omega] at hrec
    simp only [List.map_cons, List.cons_append, unwrapArgsGo, hs, emap_ok, ebind_ok,
      hrec, epure_eq, List.length_cons, List.range_succ_eq_map, List.map_map,
      List.append_eq]
    refine congrArg Except.ok (List.cons_eq_cons.mpr ⟨by simp, congrArg (· ++ _) ?_⟩)
    apply List.map_congr_left
    intro k _
    simp only [Function.comp_apply]
    rw [show i + 1 + k = i + (k + 1) from by omega]

/-- A well-formedness check that passes forces every `rest` spec to sit
at the last declared position. -/
theorem specsWFGo_rest_last (n : Nat) (specs : List (ArgSpec α)) :
    ∀ (j : Nat), specsWFGo n specs j = true →
      ∀ i f2, specs.get? i = some (ArgSpec.rest f2) → j + i = n - 1 := by
  induction specs with
  | nil => intro j _ i f2 hi; simp at hi
  | cons s ss ih =>
    intro j hwf i f2 hi
    rw [specsWFGo, Bool.and_eq_true] at hwf
    obtain ⟨h1, h2⟩ := hwf
    cases i with
    | zero =>
      have hs : s = ArgSpec.rest f2 := by simpa using hi
      subst hs
      simp only [restPositionOk, decide_eq_true_eq] at h1
      omega
    | succ i2 =>
      have := ih (j + 1) h2 i2 f2 (by simpa using hi)
      omega

/-- The `static_assert` conjunction for a parameter list of fixed
positional parameters followed by one final `rest` parameter reduces to
the final position check. -/
theorem specsWFGo_single_append (n : Nat) (gr : JSVal → Except Err α)
    (fs : List (JSVal → Except Err α)) :
    ∀ (i : Nat), specsWFGo n (fs.map ArgSpec.single ++ [ArgSpec.rest gr]) i =
      decide (i + fs.length = n - 1) := by
  induction fs with
  | nil => intro i; simp [specsWFGo, restPositionOk]
  | cons f ft ih =>
    intro i
    rw [List.map_cons, List.cons_append, specsWFGo, ih (i + 1)]
    simp only [restPositionOk, List.length_cons, Bool.true_and]
    exact decide_eq_decide.mpr (by omega)

/-- Claim C5: invoking a wrapped callable declared with `N` positional
parameters on `M < N` runtime arguments (each supplied argument itself
unwrapping successfully) fails with the TypeError naming both counts
("expected at least N arguments but received M"); no argument slot at or
beyond the supplied `M` is ever read (the failure is produced by the
`argc` guard alone, independently of the parameter's unwrap function);
and with `M ≥ N` arguments, each declared parameter `i` is unwrapped from
the `i`-th positional runtime argument, in order. -/
theorem C5_arity_failure (fs : List (JSVal → Except Err α)) (args : List JSVal) :
    ((∀ k fk vk, fs.get? k = some fk → args.get? k = some vk → ∃ a, fk vk = .ok a) →
      args.length < fs.length →
      unwrapArgs (fs.map ArgSpec.single) args =
        .error (.typeMismatchArgs fs.length args.length)) ∧
    (∀ (i n : Nat) (f : JSVal → Except Err α), args.length ≤ i →
      unwrapSingleArg f n i args = .error (.typeMismatchArgs n args.length)) ∧
    (∀ g : Nat → α,
      (∀ k fk vk, fs.get? k = some fk → args.get? k = some vk → fk vk = .ok (g k)) →
      fs.length ≤ args.length →
      unwrapArgs (fs.map ArgSpec.single) args =
        .ok ((List.range fs.length).map fun k => ArgVal.one (g k))) := by
  refine ⟨?_, ?_, ?_⟩
  · intro hok hlt
    rw [unwrapArgs, List.length_map]
    exact unwrapArgsGo_arity_error fs.length args fs 0 (Nat.zero_le _) (by omega)
      (fun k fk vk hk hv => hok k fk vk hk (by simpa using hv))
  · intro i n f hle
    simp [unwrapSingleArg, hle]
  · intro g hok hle
    rw [unwrapArgs, List.length_map]
    have := unwrapArgsGo_all_ok fs.length args fs 0 g (by omega)
      (fun k fk vk hk hv => by simpa using hok k fk vk hk (by simpa using hv))
    simpa using this

/-- Witness for claim C5: a callable with 2 declared parameters invoked
with 0 runtime arguments fails naming "expected at least 2, received 0";
invoked with 2 arguments both parameters unwrap positionally. -/
theorem C5_arity_failure_witness :
    unwrapArgs [ArgSpec.single fun _ => (.ok 1 : Except Err Nat),
        ArgSpec.single fun _ => .ok 2] [] =
      .error (.typeMismatchArgs 2 0) ∧
    unwrapArgs [ArgSpec.single fun _ => (.ok 1 : Except Err Nat),
        ArgSpec.single fun _ => .ok 2] [JSVal.num 5, JSVal.num 6] =
      .ok [ArgVal.one 1, ArgVal.one 2] := by
  constructor
  · have h := (C5_arity_failure
      [fun _ => (.ok 1 : Except Err Nat), fun _ => .ok 2] []).1
      (fun k fk vk _ hv => by simp at hv) (by decide)
    simpa using h
  · have h := (C5_arity_failure
      [fun _ => (.ok 1 : Except Err Nat), fun _ => .ok 2]
      [JSVal.num 5, JSVal.num 6]).2.2 (fun k => k + 1)
      (fun k fk vk hk hv => by
        rcases k with _ | _ | k
        · simp at hk; subst hk; rfl
        · simp at hk; subst hk; rfl
        · simp at hk)
      (by decide)
    simpa using h

/-- Claim C6: a wrapped callable whose last declared parameter is a
`rest` parameter, invoked with any number of trailing runtime arguments
beyond the fixed parameters, captures exactly those trailing arguments,
element-wise converted in call order (while the fixed parameters unwrap
positionally); and the compile-time `static_assert` accepts a parameter
list with `rest` in last position and rejects every parameter list with a
`rest` parameter in any other position. -/
theorem C6_rest_capture (fsFixed : List (JSVal → Except Err α))
    (gr : JSVal → Except Err α) (h : JSVal → α) (args : List JSVal) (g : Nat → α)
    (hfix : ∀ k fk vk, fsFixed.get? k = some fk → args.get? k = some vk →
      fk vk = .ok (g k))
    (hrest : ∀ v ∈ args.drop fsFixed.length, gr v = .ok (h v))
    (hlen : fsFixed.length ≤ args.length) :
    (unwrapArgs (fsFixed.map ArgSpec.single ++ [ArgSpec.rest gr]) args =
      .ok (((List.range fsFixed.length).map fun k => ArgVal.one (g k)) ++
        [ArgVal.many ((args.drop fsFixed.length).map h)]) ∧
      ((args.drop fsFixed.length).map h).length = args.length - fsFixed.length) ∧
    specsWellFormed (fsFixed.map ArgSpec.single ++ [ArgSpec.rest gr]) = true ∧
    (∀ (specs : List (ArgSpec α)) (i : Nat) (f2 : JSVal → Except Err α),
      specs.get? i = some (ArgSpec.rest f2) → i ≠ specs.length - 1 →
      specsWellFormed specs = false) := by
  refine ⟨⟨?_, by simp [hlen]⟩, ?_, ?_⟩
  · rw [unwrapArgs]
    have := unwrapArgsGo_fixed_then_rest
      (fsFixed.map ArgSpec.single ++ [ArgSpec.rest gr]).length args gr h fsFixed 0 g
      (by omega)
      (fun k fk vk hk hv => by simpa using hfix k fk vk hk (by simpa using hv))
      (by simpa using hrest)
    simpa using this
  · rw [specsWellFormed, specsWFGo_single_append]
    simp
  · intro specs i f2 hi hne
    cases hwf : specsWellFormed specs with
    | false => rfl
    | true =>
      exact absurd
        (by simpa using specsWFGo_rest_last specs.length specs 0 hwf i f2 hi) hne

/-- Witness for claim C6: a callable declared `(rest)` invoked with two
trailing arguments captures exactly both, in call order; and a parameter
list declaring `rest` first of two is rejected by the `static_assert`. -/
theorem C6_rest_capture_witness :
    unwrapArgs [ArgSpec.rest fun v => (.ok v : Except Err JSVal)]
      [JSVal.num 1, JSVal.num 2] =
      .ok [ArgVal.many [JSVal.num 1, JSVal.num 2]] ∧
    specsWellFormed [ArgSpec.rest fun v => (.ok v : Except Err JSVal),
      ArgSpec.single fun v => .ok v] = false := by
  have h := C6_rest_capture ([] : List (JSVal → Except Err JSVal))
    (fun v => .ok v) id [JSVal.num 1, JSVal.num 2] (fun _ => JSVal.num 0)
    (fun k fk vk hk _ => by simp at hk)
    (fun v _ => rfl) (by decide)
  constructor
  · simpa using h.1.1
  · exact h.2.2 [ArgSpec.rest fun v => (.ok v : Except Err JSVal),
      ArgSpec.single fun v => .ok v] 0 (fun v => .ok v) rfl (by decide)

/-- Owning-handle count over a concatenation. -/
theorem ownCount_append (xs ys : List Handle) :
    ownCount (xs ++ ys) = ownCount xs + ownCount ys := by
  induction xs with
  | nil => simp [ownCount]
  | cons x xs ih => simp [ownCount, ih]; omega

/-- Nulling one handle's context removes exactly its contribution to the
owning-handle count. -/
theorem ownCount_set_false (hs : List Handle) :
    ∀ (i : Nat) (h : Handle), hs[i]? = some h →
      ownCount hs = ownCount (hs.set i { hasCtx := false }) +
        (if h.hasCtx then 1 else 0) := by
  induction hs with
  | nil => intro i h hi; simp at hi
  | cons a as ih =>
    intro i h hi
    cases i with
    | zero =>
      have ha : a = h := by simpa using hi
      subst ha
      cases hv : a.hasCtx <;> simp [ownCount, List.set, hv] <;> omega
    | succ j =>
      have := ih j h (by simpa using hi)
      simp only [ownCount, List.set]
      omega

/-- Erasing one handle removes exactly its contribution to the
owning-handle count. -/
theorem ownCount_eraseIdx (hs : List Handle) :
    ∀ (i : Nat) (h : Handle), hs[i]? = some h →
      ownCount hs = ownCount (hs.eraseIdx i) + (if h.hasCtx then 1 else 0) := by
  induction hs with
  | nil => intro i h hi; simp at hi
  | cons a as ih =>
    intro i h hi
    cases i with
    | zero =>
      have ha : a = h := by simpa using hi
      subst ha
      cases hv : a.hasCtx <;> simp [ownCount, List.eraseIdx, hv] <;> omega
    | succ j =>
      have := ih j h (by simpa using hi)
      simp only [ownCount, List.eraseIdx]
      omega

/-- One step of the handle machine preserves the module flag and the
accounting invariant "reference count = baseline + owning handles +
references transferred out", provided the value is not module-tagged and
a copy is only taken from an owning handle. -/
theorem hstep_preserves_inv (r0 : Int) (st : HandleSt) (op : HOp)
    (hmod : st.isModule = false) (hok : copySourceOk st op = true)
    (hinv : st.rc = r0 + (ownCount st.handles : Int) + (st.released : Int)) :
    (hstep st op).isModule = false ∧
    (hstep st op).rc = r0 + (ownCount (hstep st op).handles : Int) +
      ((hstep st op).released : Int) := by
  cases op with
  | fresh =>
    refine ⟨hmod, ?_⟩
    simp only [hstep]
    rw [ownCount_append, hinv]
    simp [ownCount]
    push_cast
    omega
  | copy i =>
    cases hg : st.handles[i]? with
    | none => exact ⟨by simp [hstep, hg, hmod], by simpa [hstep, hg] using hinv⟩
    | some h =>
      have hc : h.hasCtx = true := by simpa [copySourceOk, hg] using hok
      refine ⟨by simp [hstep, hg, hmod], ?_⟩
      simp only [hstep, hg]
      rw [ownCount_append, hinv]
      simp [ownCount, hc]
      push_cast
      omega
  | mov i =>
    cases hg : st.handles[i]? with
    | none => exact ⟨by simp [hstep, hg, hmod], by simpa [hstep, hg] using hinv⟩
    | some h =>
      have hset := ownCount_set_false st.handles i h hg
      refine ⟨by simp [hstep, hg, hmod], ?_⟩
      simp only [hstep, hg, clearCtx]
      rw [ownCount_append, hinv]
      cases hc : h.hasCtx <;> simp [hc, ownCount] at hset ⊢ <;> push_cast <;> omega
  | rel i =>
    cases hg : st.handles[i]? with
    | none => exact ⟨by simp [hstep, hg, hmod], by simpa [hstep, hg] using hinv⟩
    | some h =>
      have hset := ownCount_set_false st.handles i h hg
      refine ⟨by simp [hstep, hg, hmod], ?_⟩
      simp only [hstep, hg, clearCtx]
      rw [hinv]
      cases hc : h.hasCtx <;> simp [hc] at hset ⊢ <;> push_cast <;> omega
  | drop i =>
    cases hg : st.handles[i]? with
    | none => exact ⟨by simp [hstep, hg, hmod], by simpa [hstep, hg] using hinv⟩
    | some h =>
      have hera := ownCount_eraseIdx st.handles i h hg
      refine ⟨by simp [hstep, hg, hmod], ?_⟩
      simp only [hstep, hg]
      rw [hinv]
      cases hc : h.hasCtx <;> simp [hc, hmod] at hera ⊢ <;> push_cast <;> omega

/-- Running a whole operation sequence preserves the accounting
invariant. -/
theorem hrun_preserves_inv (r0 : Int) (ops : List HOp) (st : HandleSt)
    (hmod : st.isModule = false) (hok : opsOk st ops = true)
    (hinv : st.rc = r0 + (ownCount st.handles : Int) + (st.released : Int)) :
    (hrun st ops).isModule = false ∧
    (hrun st ops).rc = r0 + (ownCount (hrun st ops).handles : Int) +
      ((hrun st ops).released : Int) := by
  induction ops generalizing st with
  | nil => exact ⟨hmod, hinv⟩
  | cons op ops ih =>
    rw [opsOk, Bool.and_eq_true] at hok
    have h1 := hstep_preserves_inv r0 st op hmod hok.1 hinv
    simpa [hrun, List.foldl_cons] using ih (hstep st op) h1.1 hok.2 h1.2

/-- A sequence containing no `release` leaves the transferred-out
counter unchanged. -/
theorem hrun_released_const (ops : List HOp) (st : HandleSt)
    (hnorel : ∀ i, HOp.rel i ∉ ops) : (hrun st ops).released = st.released := by
  induction ops generalizing st with
  | nil => rfl
  | cons op ops ih =>
    have h1 : (hstep st op).released = st.released := by
      cases op with
      | fresh => rfl
      | copy i => cases hg : st.handles[i]? <;> simp [hstep, hg]
      | mov i => cases hg : st.handles[i]? <;> simp [hstep, hg]
      | rel i => exact absurd (by simp) (hnorel i)
      | drop i => cases hg : st.handles[i]? <;> simp [hstep, hg]
    have h2 : ∀ i, HOp.rel i ∉ ops := fun i hi =>
      hnorel i (by simp [hi])
    simpa [hrun, List.foldl_cons, h1] using ih (hstep st op) h2

/-- Claim C7 is false as stated, at two concrete inputs.  First, for a
module-tagged underlying value with reference count 1, creating one
handle (with an explicit duplicate) and destroying it leaves the count at
2, because the destructor deliberately skips `JS_FreeValue` when the
value's tag is `JS_TAG_MODULE`.  Second, even for a non-module value with
count 1: create a handle, move-construct from it, then copy-construct
from the moved-from source — `JS_DupValue` still increments the count
while the copy inherits the source's null context — and destroy all three
handles: the count ends at 2, not 1. -/
theorem C7_counterexample :
    (hrun (hst0 1 true) [HOp.fresh, HOp.drop 0]).handles = [] ∧
    (hrun (hst0 1 true) [HOp.fresh, HOp.drop 0]).rc = 2 ∧
    (hrun (hst0 1 false)
      [HOp.fresh, HOp.mov 0, HOp.copy 0, HOp.drop 2, HOp.drop 1, HOp.drop 0]).handles
      = [] ∧
    (hrun (hst0 1 false)
      [HOp.fresh, HOp.mov 0, HOp.copy 0, HOp.drop 2, HOp.drop 1, HOp.drop 0]).rc
      = 2 := by
  refine ⟨by decide, by decide, by decide, by decide⟩

/-- Claim C7 as amended: for an underlying value that is NOT
module-tagged, and for any lifecycle history in which copies are taken
only from handles whose context is non-null, creating any number of
handles and destroying them all (with no `release` transferring a
reference out to raw code) leaves the value's reference count exactly
where it started.  Moreover, in any state: copy-constructing duplicates
the reference (count +1) and appends a handle inheriting the source's
context; move-constructing changes no count and nulls the source's
context; and destroying a handle whose context is null (moved-from or
released) changes no count. -/
theorem C7_refcount_invariant (r0 : Int) (ops : List HOp)
    (hok : opsOk (hst0 r0 false) ops = true)
    (hend : (hrun (hst0 r0 false) ops).handles = [])
    (hnorel : ∀ i, HOp.rel i ∉ ops) :
    (hrun (hst0 r0 false) ops).rc = r0 ∧
    (∀ (st : HandleSt) (i : Nat) (h : Handle), st.handles[i]? = some h →
      (hstep st (.copy i)).rc = st.rc + 1 ∧
      (hstep st (.copy i)).handles = st.handles ++ [{ hasCtx := h.hasCtx }]) ∧
    (∀ (st : HandleSt) (i : Nat) (h : Handle), st.handles[i]? = some h →
      (hstep st (.mov i)).rc = st.rc ∧
      (hstep st (.mov i)).handles[i]? = some { hasCtx := false }) ∧
    (∀ (st : HandleSt) (i : Nat) (h : Handle), st.handles[i]? = some h →
      h.hasCtx = false → (hstep st (.drop i)).rc = st.rc) := by
  refine ⟨?_, ?_, ?_, ?_⟩
  · have hinv := hrun_preserves_inv r0 ops (hst0 r0 false) rfl hok
      (by simp [hst0, ownCount])
    have hrel := hrun_released_const ops (hst0 r0 false) hnorel
    rw [hend] at hinv
    rw [hrel] at hinv
    simpa [hst0, ownCount] using hinv.2
  · intro st i h hg
    exact ⟨by simp [hstep, hg], by simp [hstep, hg]⟩
  · intro st i h hg
    have hlen : i < st.handles.length := by
      have := List.getElem?_eq_some.mp hg
      exact this.1
    refine ⟨by simp [hstep, hg], ?_⟩
    simp only [hstep, hg, clearCtx]
    rw [List.getElem?_append_left (by simpa using hlen)]
    exact List.getElem?_set_eq_of_lt _ hlen
  · intro st i h hg hc
    simp [hstep, hg, hc]

/-- Witness for the amended claim C7: reference count 5, one handle
created by duplication, one by copy, one by move, all three destroyed —
the count returns to 5. -/
theorem C7_refcount_invariant_witness :
    (hrun (hst0 5 false)
      [HOp.fresh, HOp.copy 0, HOp.mov 1, HOp.drop 2, HOp.drop 1, HOp.drop 0]).rc
      = 5 := by
  have h := C7_refcount_invariant 5
    [HOp.fresh, HOp.copy 0, HOp.mov 1, HOp.drop 2, HOp.drop 1, HOp.drop 0]
    (by decide) (by decide) (fun i hmem => by simp at hmem)
  exact h.1

/-- Claim C8: integer-keyed property access routes through the engine's
signed 64-bit accessor exactly when the key type is signed or its maximum
exceeds the unsigned 32-bit maximum, and through the unsigned 32-bit
accessor otherwise — for both `get` and `set` — and a `set` for which the
chosen engine accessor reports a negative status raises
RuntimeOperationFailed, while a non-negative status succeeds. -/
theorem C8_property_routing (t : IntTy) (get64 get32 : Int → α)
    (set64 set32 : Int → Int) (idx : Int) :
    (usesInt64Accessor t = true ↔ (t.signed = true ∨ t.maxVal > 4294967295)) ∧
    (t.signed = true ∨ t.maxVal > 4294967295 →
      propGet t get64 get32 idx = get64 (wrapMod .i64 idx) ∧
      propSet t set64 set32 idx =
        (if set64 (wrapMod .i64 idx) < 0 then .error .runtimeOperationFailed
         else .ok ())) ∧
    (t.signed = false ∧ t.maxVal ≤ 4294967295 →
      propGet t get64 get32 idx = get32 (wrapMod .u32 idx) ∧
      propSet t set64 set32 idx =
        (if set32 (wrapMod .u32 idx) < 0 then .error .runtimeOperationFailed
         else .ok ())) ∧
    (usesInt64Accessor t = true → set64 (wrapMod .i64 idx) < 0 →
      propSet t set64 set32 idx = .error .runtimeOperationFailed) ∧
    (usesInt64Accessor t = false → set32 (wrapMod .u32 idx) < 0 →
      propSet t set64 set32 idx = .error .runtimeOperationFailed) := by
  have hiff : usesInt64Accessor t = true ↔ (t.signed = true ∨ t.maxVal > 4294967295) := by
    rw [usesInt64Accessor, Bool.or_eq_true, decide_eq_true_eq]
    exact Or.comm
  refine ⟨hiff, ?_, ?_, ?_, ?_⟩
  · intro hcond
    have hu : usesInt64Accessor t = true := hiff.mpr hcond
    exact ⟨by simp [propGet, hu], by simp [propSet, hu]⟩
  · intro hcond
    have hu : usesInt64Accessor t = false := by
      cases hb : usesInt64Accessor t
      · rfl
      · rcases hiff.mp hb with hs | hm
        · rw [hcond.1] at hs; exact absurd hs (by simp)
        · exact absurd hm (by omega)
    exact ⟨by simp [propGet, hu], by simp [propSet, hu]⟩
  · intro hu hneg
    simp [propSet, hu, hneg]
  · intro hu hneg
    simp [propSet, hu, hneg]

/-- Witness for claim C8: `int8` (signed, so routed through the signed
64-bit accessor) with an engine that reports failure raises
RuntimeOperationFailed; `uint32` (unsigned, maximum within 32 bits) with
a succeeding engine routes the key through the unsigned 32-bit
accessor. -/
theorem C8_property_routing_witness :
    propSet IntTy.i8 (fun _ => -1) (fun _ => 0) 3 =
      .error .runtimeOperationFailed ∧
    propGet IntTy.u32 (fun k => k + 100) (fun k => k + 200) 7 = 207 := by
  constructor
  · exact (C8_property_routing IntTy.i8 (fun k => k + 100) (fun k => k + 200)
      (fun _ => -1) (fun _ => 0) 3).2.2.2.1 (by decide) (by decide)
  · have h := (C8_property_routing IntTy.u32 (fun k => k + 100) (fun k => k + 200)
      (fun _ => -1) (fun _ => 0) 7).2.2.1 (by decide)
    rw [h.1]
    decide

/-- Claim C9: unwrapping as native `bool` is total — the model returns a
plain `Bool`, with no error outcome — and yields `true` exactly when the
engine's to-boolean primitive reports a strictly positive status, so a
negative (failure) status collapses silently to `false` rather than
surfacing as an error. -/
theorem C9_bool_total (toBool : JSVal → Int) (v : JSVal) :
    (boolUnwrap toBool v = true ↔ toBool v > 0) ∧
    (toBool v ≤ 0 → boolUnwrap toBool v = false) ∧
    (toBool v < 0 → boolUnwrap toBool v = false) := by
  refine ⟨?_, ?_, ?_⟩
  · simp [boolUnwrap]
  · intro h
    simp [boolUnwrap]
    omega
  · intro h
    simp [boolUnwrap]
    omega

/-- Witness for claim C9: an engine reporting status -1 (failure) yields
`false`, and one reporting 1 yields `true`. -/
theorem C9_bool_total_witness :
    boolUnwrap (fun _ => -1) JSVal.undef = false ∧
    boolUnwrap (fun _ => 1) JSVal.undef = true := by
  constructor
  · exact (C9_bool_total (fun _ => -1) JSVal.undef).2.2 (by decide)
  · exact (C9_bool_total (fun _ => 1) JSVal.undef).1.mpr (by decide)

/-- Claim C10: equality on value handles is identity of the raw runtime
value — two handles compare equal exactly when their raw values carry the
same tag and the same payload word — so two separately allocated heap
values whose contents are identical (same string text at two different
heap cells) compare unequal. -/
theorem C10_handle_equality (a b : RawVal) (heap : Nat → String) (tg : Int)
    (p q : Nat) :
    (rawEq a b = true ↔ (a.tag = b.tag ∧ a.payload = b.payload)) ∧
    (p ≠ q → heap p = heap q →
      rawEq { tag := tg, payload := p } { tag := tg, payload := q } = false) := by
  constructor
  · simp [rawEq]
  · intro hpq _
    simp [rawEq, hpq]

/-- Witness for claim C10: two string values with the same text at heap
cells 5 and 7 (both carrying the string tag -7) compare unequal, while a
value compares equal to itself. -/
theorem C10_handle_equality_witness :
    rawEq { tag := -7, payload := 5 } { tag := -7, payload := 7 } = false ∧
    rawEq { tag := -7, payload := 5 } { tag := -7, payload := 5 } = true := by
  constructor
  · exact (C10_handle_equality { tag := -7, payload := 5 }
      { tag := -7, payload := 7 } (fun _ => "sametext") (-7) 5 7).2
      (by decide) rfl
  · exact (C10_handle_equality { tag := -7, payload := 5 }
      { tag := -7, payload := 5 } (fun _ => "sametext") (-7) 5 7).1.mpr
      ⟨rfl, rfl⟩

end QjsPP
